import Mathlib

/-!
Shallow embedding of the c-d-a duplication post-processor (src/analyzer.rs,
src/runner.rs, src/counter.rs) and verification of its specification claims.

Machine integers are modelled as `Nat` with explicit overflow handling where the
source parses into `usize`/`u32`; `f32` arithmetic over the nonnegative values the
program produces is modelled exactly (rationals extended with infinity and NaN,
ignoring rounding, which cannot move a nonnegative ratio out of `[0, 1]` after the
program's clamp); Rust panics are modelled as `Except.error`.
-/

deriving instance DecidableEq for Except

namespace CDA

/-- The character class `\d` of the regexes: ASCII digit. -/
def isDigitC (c : Char) : Bool := decide (48 ≤ c.toNat ∧ c.toNat ≤ 57)

/-- Maximal run of `\d` characters at the front (greedy `\d*`). -/
def takeDigits : List Char → List Char × List Char
  | [] => ([], [])
  | c :: cs =>
    if isDigitC c then
      let r := takeDigits cs
      (c :: r.1, r.2)
    else ([], c :: cs)

/-- Numeric value of a digit string (mathematical, unbounded). -/
def digitsToNat (ds : List Char) : Nat :=
  ds.foldl (fun acc c => acc * 10 + (c.toNat - 48)) 0

/-- Number of values of Rust `usize` (64-bit target). -/
def USIZE : Nat := 2 ^ 64

/-- Number of values of Rust `u32`. -/
def U32 : Nat := 2 ^ 32

/-- Semantics of `digits.parse::<usize>().unwrap_or_default()` on an all-digit string:
the value, or `0` when it does not fit in `usize` (parse returns `Err`). -/
def parseUsizeOrDefault (ds : List Char) : Nat :=
  if digitsToNat ds < USIZE then digitsToNat ds else 0

/-- Semantics of `digits.parse::<u32>().unwrap_or_default()` on an all-digit string. -/
def parseU32OrDefault (ds : List Char) : Nat :=
  if digitsToNat ds < U32 then digitsToNat ds else 0

/-- Strip a literal pattern from the front: `some rest` when `s = pat ++ rest`. -/
def stripPre : List Char → List Char → Option (List Char)
  | [], s => some s
  | _ :: _, [] => none
  | p :: ps, c :: cs => if c = p then stripPre ps cs else none

/-- The capture `([1-9]\d*)`: a digit run starting with a nonzero digit
(greedy; equivalent to the maximal run here because the regexes follow the
capture with a non-digit literal). Returns the digits and the rest. -/
def posDigits : List Char → Option (List Char × List Char)
  | [] => none
  | c :: cs =>
    if isDigitC c ∧ c ≠ '0' then
      let r := takeDigits cs
      some (c :: r.1, r.2)
    else none

/-- Embedding of `LinesAnalyzer::analyze` (src/analyzer.rs lines 19-28): first match of the
anchored regex `^Found a ([1-9]\d*) line` on the line; on a match, the capture is
parsed with `parse::<usize>().unwrap_or_default()`. -/
def LinesAnalyzer.analyze (source : String) : Option Nat :=
  match stripPre "Found a ".data source.data with
  | none => none
  | some r1 =>
    match posDigits r1 with
    | none => none
    | some (ds, r2) =>
      match stripPre " line".data r2 with
      | none => none
      | some _ => some (parseUsizeOrDefault ds)

/-- One attempt of the regex `Starting at line ([1-9]\d*) of (/.+)?` at a fixed
start position: returns the digit capture and the optional path capture
(`none` in the second component means capture group 2 did not participate;
`.+` is greedy and stops at a newline or the end of the text). -/
def dupMatchAt (s : List Char) : Option (List Char × Option (List Char)) :=
  match stripPre "Starting at line ".data s with
  | none => none
  | some r1 =>
    match posDigits r1 with
    | none => none
    | some (ds, r2) =>
      match stripPre " of ".data r2 with
      | none => none
      | some r3 =>
        match r3 with
        | '/' :: rest =>
          let p := rest.takeWhile (fun c => c ≠ '\n')
          if p = [] then some (ds, none) else some (ds, some ('/' :: p))
        | _ => some (ds, none)

/-- Leftmost match of the unanchored regex `Starting at line ([1-9]\d*) of (/.+)?`:
try each start position left to right. -/
def dupSearch : List Char → Option (List Char × Option (List Char))
  | [] => none
  | s@(_ :: rest) =>
    match dupMatchAt s with
    | some r => some r
    | none => dupSearch rest

/-- Embedding of `DuplicationAnalyzer::analyze` (src/analyzer.rs lines 42-53): first match of
`Starting at line ([1-9]\d*) of (/.+)?`. `cap.len()` is always 3 (it counts the
groups of the pattern, participating or not), so the guard `cap.len() > 2` always
passes and `&cap[2]` is evaluated: when the optional path group did not
participate this indexing panics, modelled as `Except.error`. -/
def DuplicationAnalyzer.analyze (source : String) :
    Except String (Option (Nat × String)) :=
  match dupSearch source.data with
  | none => .ok none
  | some (ds, some path) => .ok (some (parseU32OrDefault ds, ⟨path⟩))
  | some (_, none) => .error "no group at index 2"

/-- Embedding of `Lang` (src/counter.rs lines 5-12). -/
inductive Lang
  | Swift
  | Java
  | Html
  | Kotlin
  | Rust
deriving DecidableEq

/-- Embedding of `Lang::extension` (src/counter.rs lines 15-23). -/
def Lang.extension : Lang → String
  | .Swift => "swift"
  | .Java => "java"
  | .Html => "html"
  | .Kotlin => "kt"
  | .Rust => "rs"

/-- Embedding of `Lang::lang` (src/counter.rs lines 25-33), the `--language` identifier. -/
def Lang.lang : Lang → String
  | .Swift => "swift"
  | .Java => "java"
  | .Html => "html"
  | .Kotlin => "kotlin"
  | .Rust => "rust"

/-- Embedding of `SourceCode` (src/counter.rs lines 42-46). -/
structure SourceCode where
  file : String
  lines : Nat
deriving DecidableEq

/-- Embedding of `SourceCode::new` (src/counter.rs lines 49-54). -/
def SourceCode.new : SourceCode := ⟨"", 0⟩

/-- Embedding of `SourceCode::is_empty` (src/counter.rs lines 56-58): the file path is empty. -/
def SourceCode.is_empty (s : SourceCode) : Bool := s.file == ""

/-- Embedding of `Duplication` (src/runner.rs lines 52-57). -/
structure Duplication where
  lines : Nat
  source : SourceCode
  destination : List SourceCode
deriving DecidableEq

/-- Embedding of `Duplication::new` (src/runner.rs lines 60-66). -/
def Duplication.new (lines : Nat) : Duplication := ⟨lines, SourceCode.new, []⟩

/-- Embedding of `Duplication::add_destination` (src/runner.rs lines 67-69): `Vec::push`. -/
def Duplication.add_destination (d : Duplication) (des : SourceCode) : Duplication :=
  { d with destination := d.destination ++ [des] }

/-- Embedding of `Duplication::clear_destination` (src/runner.rs lines 71-73). -/
def Duplication.clear_destination (d : Duplication) : Duplication :=
  { d with destination := [] }

/-- Embedding of `Duplication::add_lines` (src/runner.rs lines 75-77). -/
def Duplication.add_lines (d : Duplication) (line : Nat) : Duplication :=
  { d with lines := d.lines + line }

/-- Model of the nonnegative `f32` values produced by the rate computations:
NaN, infinity, or a nonnegative fraction `num / den` kept as an unreduced
numerator/denominator pair (the denominator is positive in every value the
program builds). The stored fraction is the exact value of the computation
that produced it; the rounding performed by `f32` operations is modelled where
it matters — `F32.addRounded` rounds each addition to the binary32 grid —
while `usize as f32` casts and the divisions are kept exact (rounding a
nonnegative value cannot move the clamped ratios out of `[0, 1]`, which is all
the range claims depend on). -/
inductive F32
  | nan
  | inf
  | fin (num den : Nat)
deriving DecidableEq

/-- IEEE division restricted to the nonnegative values the program divides:
`0/0` is NaN, `x/0` with `x > 0` is infinity, else exact fraction division. -/
def F32.div : F32 → F32 → F32
  | .nan, _ => .nan
  | _, .nan => .nan
  | .inf, .inf => .nan
  | .inf, .fin _ _ => .inf
  | .fin _ _, .inf => .fin 0 1
  | .fin a b, .fin c d =>
    if c = 0 then (if a = 0 then .nan else .inf) else .fin (a * d) (b * c)

/-- IEEE `>` on the modelled values: any comparison with NaN is false; finite
fractions compare by cross multiplication. -/
def F32.gt : F32 → F32 → Bool
  | .nan, _ => false
  | _, .nan => false
  | .inf, .inf => false
  | .inf, .fin _ _ => true
  | .fin _ _, .inf => false
  | .fin a b, .fin c d => decide (c * b < a * d)

/-- Floor of the base-2 logarithm of a natural number, computed with
structural fuel so that it evaluates in the kernel (first argument: fuel). -/
def log2Fuel : Nat → Nat → Nat
  | 0, _ => 0
  | fuel + 1, n => if n ≤ 1 then 0 else log2Fuel fuel (n / 2) + 1

/-- Floor of the base-2 logarithm (0 for 0 and 1). -/
def natLog2 (n : Nat) : Nat := log2Fuel n n

/-- Floor of the base-2 logarithm of the positive fraction `n / d`: the unique
`e` with `2 ^ e ≤ n / d < 2 ^ (e + 1)`. -/
def fracLog2 (n d : Nat) : Int :=
  if d ≤ n then Int.ofNat (natLog2 (n / d))
  else
    let f := natLog2 (d / n)
    if n * 2 ^ f = d then -(f : Int) else -(f : Int) - 1

/-- Round the nonnegative fraction `n / d` to the IEEE-754 binary32 grid
(round to nearest, ties to even), returning the rounded value as an exact
fraction: binary32 has 24-bit significands, normal exponents `-126..127`,
subnormals on the `2 ^ (-149)` grid, and overflows to infinity at `2 ^ 128`.
The significand is obtained by scaling `n / d` into `[2 ^ 23, 2 ^ 24)` (or
onto the subnormal grid when the exponent clamps at `-126`) and rounding the
scaled value to an integer. -/
def roundF32 (n d : Nat) : F32 :=
  if n = 0 then .fin 0 1
  else
    let e : Int := max (fracLog2 n d) (-126)
    let sn := if e ≤ 23 then n * 2 ^ (23 - e).toNat else n
    let sd := if e ≤ 23 then d else d * 2 ^ (e - 23).toNat
    let q := sn / sd
    let r := sn % sd
    let m := if 2 * r < sd then q
             else if sd < 2 * r then q + 1
             else if q % 2 = 0 then q else q + 1
    if 23 ≤ e then
      (if (2 : Nat) ^ 128 ≤ m * 2 ^ (e - 23).toNat then .inf
       else .fin (m * 2 ^ (e - 23).toNat) 1)
    else .fin m (2 ^ (23 - e).toNat)

/-- IEEE `+` on the modelled (nonnegative) values: the exact sum of the two
operands, rounded to binary32 — the semantics of `f32` addition when the
operands are themselves representable values. NaN and infinity absorb. -/
def F32.addRounded : F32 → F32 → F32
  | .nan, _ => .nan
  | _, .nan => .nan
  | .inf, _ => .inf
  | _, .inf => .inf
  | .fin a b, .fin c d => roundF32 (a * d + c * b) (b * d)

/-- The value is an ordinary number in `[0, 1]` (NaN and infinity are not). -/
def F32.inRange01 : F32 → Bool
  | .fin a b => decide (a ≤ b ∧ 0 < b)
  | _ => false

/-- The exact value of `n as f32` for a machine integer `n`. -/
def F32.ofNat (n : Nat) : F32 := .fin n 1

/-- Embedding of `Duplication::dup_rate` (src/runner.rs lines 79-90): 0 with no destination,
else `lines / destination[0].lines` clamped at 1.0 by `if rate > 1.0`. -/
def Duplication.dup_rate (d : Duplication) : F32 :=
  if d.destination.isEmpty then .fin 0 1
  else
    let rate := F32.div (.ofNat d.lines) (.ofNat (d.destination.headD SourceCode.new).lines)
    if rate.gt (.fin 1 1) then .fin 1 1 else rate

/-- Embedding of `Duplication::rate_of_source_code` (src/runner.rs lines 92-99). -/
def Duplication.rate_of_source_code (d : Duplication) : F32 :=
  let rate := F32.div (.ofNat d.lines) (.ofNat d.source.lines)
  if rate.gt (.fin 1 1) then .fin 1 1 else rate

/-- A file system: a path maps to the file's lines when readable (`File::open`
succeeds), with each line either decoded text or a read/decode error. -/
def FS := String → Option (List (Except Unit String))

/-- The counting loop of `read_lines`/`count_lines` (src/runner.rs lines
304-336): lines are counted in order (blank lines only when `ignore_blank` is
false) and a line read error breaks out of the loop, keeping the count so far
(`read_lines` still returns `Ok`). -/
def countLinesLoop (ignore_blank : Bool) : List (Except Unit String) → Nat
  | [] => 0
  | .error _ :: _ => 0
  | .ok s :: rest =>
    (if s ≠ "" ∨ ignore_blank = false then 1 else 0) + countLinesLoop ignore_blank rest

/-- Embedding of `count_lines` (src/runner.rs lines 321-336): 0 when the file cannot be
opened, else the counting loop over its lines. -/
def count_lines (fs : FS) (path : String) (ignore_blank : Bool) : Nat :=
  match fs path with
  | none => 0
  | some content => countLinesLoop ignore_blank content

/-- Split a character list on a separator character, as `str::split` /
`String.splitOn` with a one-character separator: `"/a/" → ["", "a", ""]`. -/
def splitChar (sep : Char) : List Char → List (List Char)
  | [] => [[]]
  | c :: cs =>
    let r := splitChar sep cs
    if c = sep then [] :: r
    else
      match r with
      | [] => [[c]]
      | x :: xs => (c :: x) :: xs

/-- Rust `Path::file_name`: the last normal component of the path (empty
components and `.` are skipped); `none` for a root path or one ending in `..`,
where the source's `.unwrap()` panics. -/
def rustFileName (path : String) : Option (List Char) :=
  let comps := (splitChar '/' path.data).filter (fun c => c ≠ [] ∧ c ≠ ['.'])
  match comps.getLast? with
  | none => none
  | some c => if c = ['.', '.'] then none else some c

/-- Match a regex pattern consisting of literal characters and the `.`
metacharacter (any character but a newline) against the front of the text. -/
def dotMatchAt : List Char → List Char → Bool
  | [], _ => true
  | _ :: _, [] => false
  | p :: ps, t :: ts =>
    (if p = '.' then t ≠ '\n' else p = t) && dotMatchAt ps ts

/-- Embedding of `Regex::is_match` for a literal-and-dot pattern: the pattern matches at some
position of the text. -/
def dotFind (pat : List Char) : List Char → Bool
  | [] => dotMatchAt pat []
  | t@(_ :: rest) => dotMatchAt pat t || dotFind pat rest

/-- The characters the regex engine treats as plain literal text: everything
except the metacharacters backslash, `.`, `+`, `*`, `?`, parentheses, `|`,
square brackets, braces, `^` and `$`. A pattern made only of literal
characters compiles to a literal matcher, whose `is_match` is substring
search. -/
def regexLiteral (c : Char) : Bool :=
  decide (c ∉ ['\\', '.', '+', '*', '?', '(', ')', '|', '[', ']', '^', '$',
               Char.ofNat 123, Char.ofNat 125])

/-- Embedding of `Args::is_destination_soruce_file` (src/runner.rs lines 40-49): the final
path segment of the configured destination directory is interpolated unescaped
into the regex `/{segment}/`, which is then searched anywhere in the file path.
The embedding models the regex fragment the theorems of this development
evaluate it on: patterns of literal characters plus the `.` metacharacter (any
character but a newline). A segment containing one of the other metacharacters
is outside the model — on such a segment the real code interprets regex syntax
(for example `*` as repetition) or panics in `Regex::new(...).unwrap()` on an
invalid pattern — so every theorem that evaluates this function restricts its
identifier to literal characters (`regexLiteral`) or to literals plus `.`.
`Path::file_name().unwrap()` panics on a path with no final segment, modelled
as `Except.error`. -/
def is_destination_soruce_file (destination file : String) : Except String Bool :=
  match rustFileName destination with
  | none => .error "called Option::unwrap on a None value"
  | some name => .ok (dotFind ('/' :: name ++ ['/']) file.data)

/-- Rust `str::contains` with a string pattern: substring search. -/
def subSearch (pat : List Char) : List Char → Bool
  | [] => (stripPre pat []).isSome
  | t@(_ :: rest) => (stripPre pat t).isSome || subSearch pat rest

/-- The configuration `Runner::analyze` reads from `Args` (src/runner.rs lines
16-37): the `--source` and `--destination` directory arguments. -/
structure Config where
  source : String
  destination : String

/-- The mutable locals of the parsing loop in `Runner::analyze` (src/runner.rs
lines 177-181): `is_new_group`, the collected `result`, and the open `dup`. -/
structure AnalyzeState where
  is_new_group : Bool
  result : List Duplication
  dup : Duplication
deriving DecidableEq

/-- Initial state of the loop: `is_new_group = false`, empty result,
`Duplication::new(0)`. -/
def initState : AnalyzeState := ⟨false, [], Duplication.new 0⟩

/-- One iteration of the loop in `Runner::analyze` (src/runner.rs lines
186-231): an unreadable line is skipped; an empty line while in a group emits
the group when its source is set and resets; a header line stores the declared
count; a location line is classified (source when the path contains the
`--source` string and no source is set yet; else destination when
`is_destination_soruce_file` matches; else the destination list is cleared),
with the occurrence's on-disk line count attached via `count_lines`. Panics of
the analyzers propagate as `Except.error`. -/
def analyzeStep (cfg : Config) (fs : FS) (st : AnalyzeState)
    (line : Except Unit String) : Except String AnalyzeState :=
  match line with
  | .error _ => .ok st
  | .ok string =>
    if string == "" && st.is_new_group then
      .ok ⟨false,
        (if !st.dup.source.is_empty then st.result ++ [st.dup] else st.result),
        Duplication.new 0⟩
    else
      match LinesAnalyzer.analyze string with
      | some value => .ok ⟨true, st.result, { st.dup with lines := value }⟩
      | none =>
        match DuplicationAnalyzer.analyze string with
        | .error e => .error e
        | .ok none => .ok st
        | .ok (some (_, dup_file)) =>
          let is_source := subSearch cfg.source.data dup_file.data
          match is_destination_soruce_file cfg.destination dup_file with
          | .error e => .error e
          | .ok is_dest =>
            let lines := count_lines fs dup_file true
            let sc : SourceCode := ⟨dup_file, lines⟩
            .ok (if is_source && st.dup.source.is_empty then
                   ⟨st.is_new_group, st.result, { st.dup with source := sc }⟩
                 else if is_dest then
                   ⟨st.is_new_group, st.result, st.dup.add_destination sc⟩
                 else
                   ⟨st.is_new_group, st.result, st.dup.clear_destination⟩)

/-- The whole parsing loop of `Runner::analyze` over the report lines. -/
def analyzeLoop (cfg : Config) (fs : FS) :
    AnalyzeState → List (Except Unit String) → Except String AnalyzeState
  | st, [] => .ok st
  | st, l :: ls =>
    match analyzeStep cfg fs st l with
    | .error e => .error e
    | .ok st' => analyzeLoop cfg fs st' ls

/-- Embedding of `Runner::analyze` (src/runner.rs lines 168-236) up to the call of
`pretty_printed`: the collected duplication groups. The report is the ordered
list of its lines, each `Except.error` where the reader yields a decode error. -/
def Runner.analyze (cfg : Config) (fs : FS) (lines : List (Except Unit String)) :
    Except String (List Duplication) :=
  match analyzeLoop cfg fs initState lines with
  | .error e => .error e
  | .ok st => .ok st.result

/-- Lookup in the association-list model of the `HashMap` keyed by
`source.file`. -/
def lookupA : List (String × Duplication) → String → Option Duplication
  | [], _ => none
  | (k', v) :: rest, k => if k = k' then some v else lookupA rest k

/-- Embedding of `Entry::and_modify`: apply `f` to the value at the key, if present. -/
def modifyA (f : Duplication → Duplication) :
    List (String × Duplication) → String → List (String × Duplication)
  | [], _ => []
  | (k', v) :: rest, k =>
    if k = k' then (k', f v) :: rest else (k', v) :: modifyA f rest k

/-- The aggregation step of `Runner::pretty_printed` (src/runner.rs lines
243-259): a group with an empty destination list is skipped; else
`map.entry(&dup.source.file).and_modify(|d| d.add_lines(dup.lines)).or_insert(dup.clone())`. -/
def aggStep (m : List (String × Duplication)) (dup : Duplication) :
    List (String × Duplication) :=
  if dup.destination.isEmpty then m
  else
    match lookupA m dup.source.file with
    | some _ => modifyA (fun d => d.add_lines dup.lines) m dup.source.file
    | none => m ++ [(dup.source.file, dup)]

/-- The aggregation fold of `Runner::pretty_printed` over the parsed groups. -/
def aggregate (dups : List Duplication) : List (String × Duplication) :=
  dups.foldl aggStep []

/-- Sum of `Duplication.lines` over a list of groups. -/
def sumLines (l : List Duplication) : Nat := (l.map Duplication.lines).sum

/-- The run-level accumulator `total_rate += val.dup_rate()` of
`Runner::pretty_printed` (src/runner.rs lines 263-287), starting from `0.0`
and accumulating with rounded `f32` addition over the map's values in
iteration order (the `self_rate` accumulator is the same loop over
`rate_of_source_code`). -/
def totalRateRounded (vals : List Duplication) : F32 :=
  (vals.map Duplication.dup_rate).foldl F32.addRounded (.fin 0 1)

mutual
/-- A directory tree on disk: files carry their full path and lines, as read by
the scanner. -/
inductive FTree
  | file (path : String) (content : List (Except Unit String))
  | dir (path : String) (entries : FTreeList)
/-- The entries of a directory, in directory order. -/
inductive FTreeList
  | nil
  | cons (t : FTree) (ts : FTreeList)
end

/-- Rust `Path::extension`: the part of the file name after its last `.`;
`none` when there is no `.`, or the only `.` is a leading one. -/
def pathExtension (path : String) : Option (List Char) :=
  match rustFileName path with
  | none => none
  | some name =>
    match splitChar '.' name with
    | [] => none
    | [_] => none
    | first :: more =>
      if first = [] ∧ more.length = 1 then none else more.getLast?

mutual
/-- Embedding of `Scanner::read_dir` (src/counter.rs lines 109-154): depth-first traversal;
a file is kept when its extension is one of the included languages' extensions,
with its non-blank line count from `count_lines(path, true)`. -/
def Scanner.read_dir (includes : List Lang) : FTree → List SourceCode
  | .file path content =>
    match pathExtension path with
    | none => []
    | some ext =>
      if (includes.map (fun l => l.extension.data)).contains ext then
        [⟨path, countLinesLoop true content⟩]
      else []
  | .dir _ entries => Scanner.read_dir_all includes entries
/-- The loop over a directory's entries in `Scanner::read_dir`, appending the
recursive results in order. -/
def Scanner.read_dir_all (includes : List Lang) : FTreeList → List SourceCode
  | .nil => []
  | .cons t ts => Scanner.read_dir includes t ++ Scanner.read_dir_all includes ts
end

/-- Embedding of `Scanner::scan` (src/counter.rs lines 67-71). -/
def Scanner.scan (root : FTree) (includes : List Lang) : List SourceCode :=
  Scanner.read_dir includes root

/-- Embedding of `Scanner::num_of_files` (src/counter.rs lines 77-79). -/
def Scanner.num_of_files (sources : List SourceCode) : Nat := sources.length

/-- The language list used for the run-level file counts in
`Runner::pretty_printed` (src/runner.rs lines 290-291):
`// TODO: using language from args.` followed by `let langs = [Lang::Swift];` —
hardcoded to Swift, ignoring the `--language` argument. -/
def Runner.langs : List Lang := [Lang.Swift]

/-- Reference recognizer: `matchGroupHeader` as the specification words it (spec §4.1): a line
beginning with the fixed phrase, a positive integer with no leading zero, and
the word "line"; returns that integer (unbounded — the spec says nothing about
machine-integer overflow). Used as the reference recognizer for the refinement
statement about `LinesAnalyzer.analyze`. -/
def specHeaderMatch (line : String) : Option Nat :=
  match stripPre "Found a ".data line.data with
  | none => none
  | some r1 =>
    match posDigits r1 with
    | none => none
    | some (ds, r2) =>
      match stripPre " line".data r2 with
      | none => none
      | some _ => some (digitsToNat ds)

/-! ## Helper lemmas -/

theorem linesAnalyze_empty_line : LinesAnalyzer.analyze "" = none := by decide

theorem dupAnalyze_empty_line :
    DuplicationAnalyzer.analyze "" = .ok none := by decide

/-- Processing an empty report line: emission and reset when in a group, no-op
otherwise. -/
theorem analyzeStep_empty (cfg : Config) (fs : FS) (st : AnalyzeState) :
    analyzeStep cfg fs st (.ok "") =
      .ok (if st.is_new_group then
            ⟨false,
             (if st.dup.source.is_empty then st.result else st.result ++ [st.dup]),
             Duplication.new 0⟩
           else st) := by
  cases hg : st.is_new_group <;> cases he : st.dup.source.is_empty <;>
    simp [analyzeStep, hg, he, linesAnalyze_empty_line,
      dupAnalyze_empty_line]

/-- The parsing loop splits over list append. -/
theorem analyzeLoop_append (cfg : Config) (fs : FS) :
    ∀ (xs ys : List (Except Unit String)) (st : AnalyzeState),
      analyzeLoop cfg fs st (xs ++ ys) =
        match analyzeLoop cfg fs st xs with
        | .error e => .error e
        | .ok st' => analyzeLoop cfg fs st' ys
  | [], ys, st => by simp [analyzeLoop]
  | x :: xs, ys, st => by
    simp only [List.cons_append, analyzeLoop]
    cases analyzeStep cfg fs st x with
    | error e => rfl
    | ok st1 => exact analyzeLoop_append cfg fs xs ys st1

/-- Key lookup after `and_modify`: the value at the modified key is mapped,
other keys are untouched. -/
theorem lookupA_modifyA (f : Duplication → Duplication) :
    ∀ (m : List (String × Duplication)) (key k : String),
      lookupA (modifyA f m key) k =
        if k = key then (lookupA m key).map f else lookupA m k
  | [], key, k => by simp [lookupA, modifyA]
  | (k', v) :: rest, key, k => by
    by_cases h1 : key = k'
    · subst h1
      by_cases h2 : k = key <;> simp [modifyA, lookupA, h2]
    · by_cases h2 : k = k'
      · subst h2
        have : ¬k = key := fun h => h1 (h ▸ rfl)
        simp [modifyA, lookupA, h1, this, Ne.symm h1]
      · simp [modifyA, lookupA, h1, h2, Ne.symm h1,
          lookupA_modifyA f rest key k]

/-- Key lookup after `or_insert` at the back: earlier bindings win. -/
theorem lookupA_append_single :
    ∀ (m : List (String × Duplication)) (key k : String) (v : Duplication),
      lookupA (m ++ [(key, v)]) k =
        match lookupA m k with
        | some x => some x
        | none => if k = key then some v else none
  | [], key, k, v => by simp [lookupA]
  | (k', w) :: rest, key, k, v => by
    by_cases h : k = k' <;>
      simp [lookupA, h, lookupA_append_single rest key k v]

theorem sumLines_nil : sumLines [] = 0 := rfl

theorem sumLines_cons (d : Duplication) (l : List Duplication) :
    sumLines (d :: l) = d.lines + sumLines l := by simp [sumLines]

/-- The aggregation fold, characterised per key: starting from map `m`, after
folding `dups` the value at key `k` has accumulated the line sums of exactly
the non-skipped groups keyed `k`, and (when `k` was absent from `m`) the first
such group's source and destination list. -/
theorem foldl_aggStep_lookup :
    ∀ (dups : List Duplication) (m : List (String × Duplication)) (k : String),
      lookupA (dups.foldl aggStep m) k =
        match lookupA m k with
        | some v =>
          some ⟨v.lines + sumLines (dups.filter
                  (fun g => !g.destination.isEmpty && g.source.file == k)),
                v.source, v.destination⟩
        | none =>
          match dups.filter (fun g => !g.destination.isEmpty && g.source.file == k) with
          | [] => none
          | g :: gs => some ⟨g.lines + sumLines gs, g.source, g.destination⟩
  | [], m, k => by
    cases h : lookupA m k <;> simp [h, sumLines]
  | d :: ds, m, k => by
    rw [List.foldl_cons]
    cases hde : d.destination.isEmpty with
    | true =>
      have hstep : aggStep m d = m := by simp [aggStep, hde]
      have hfilter : (d :: ds).filter (fun g => !g.destination.isEmpty && g.source.file == k)
          = ds.filter (fun g => !g.destination.isEmpty && g.source.file == k) := by
        simp [List.filter_cons, hde]
      rw [hstep, foldl_aggStep_lookup ds m k, hfilter]
    | false =>
      by_cases hk : d.source.file = k
      · have hfilter : (d :: ds).filter (fun g => !g.destination.isEmpty && g.source.file == k)
            = d :: ds.filter (fun g => !g.destination.isEmpty && g.source.file == k) := by
          simp [List.filter_cons, hde, hk]
        cases hm : lookupA m d.source.file with
        | some w =>
          have hstep : aggStep m d =
              modifyA (fun x => x.add_lines d.lines) m d.source.file := by
            simp [aggStep, hde, hm]
          have hmk : lookupA m k = some w := hk ▸ hm
          rw [hstep, foldl_aggStep_lookup ds _ k, lookupA_modifyA, if_pos hk.symm,
            hm, hmk, hfilter]
          simp [Duplication.add_lines, sumLines_cons]
          omega
        | none =>
          have hstep : aggStep m d = m ++ [(d.source.file, d)] := by
            simp [aggStep, hde, hm]
          have hmk : lookupA m k = none := hk ▸ hm
          rw [hstep, foldl_aggStep_lookup ds _ k, lookupA_append_single, hmk, hfilter]
          simp [if_pos hk.symm, sumLines_cons]
      · have hfilter : (d :: ds).filter (fun g => !g.destination.isEmpty && g.source.file == k)
            = ds.filter (fun g => !g.destination.isEmpty && g.source.file == k) := by
          simp [List.filter_cons, hde, hk]
        cases hm : lookupA m d.source.file with
        | some w =>
          have hstep : aggStep m d =
              modifyA (fun x => x.add_lines d.lines) m d.source.file := by
            simp [aggStep, hde, hm]
          rw [hstep, foldl_aggStep_lookup ds _ k, lookupA_modifyA,
            if_neg (Ne.symm hk), hfilter]
        | none =>
          have hstep : aggStep m d = m ++ [(d.source.file, d)] := by
            simp [aggStep, hde, hm]
          rw [hstep, foldl_aggStep_lookup ds _ k, lookupA_append_single, hfilter]
          cases hmk : lookupA m k <;> simp [hmk, if_neg (Ne.symm hk)]

/-- The helper `stripPre` succeeds exactly on prefix decompositions. -/
theorem stripPre_iff : ∀ (p s r : List Char), stripPre p s = some r ↔ s = p ++ r
  | [], s, r => by simp [stripPre]
  | p :: ps, [], r => by simp [stripPre]
  | p :: ps, c :: cs, r => by
    by_cases h : c = p
    · subst h
      simp [stripPre, stripPre_iff ps cs r]
    · simp [stripPre, h, Ne.symm h]

/-- On a pattern without the `.` metacharacter, matching at the front is
literal prefix stripping. -/
theorem dotMatchAt_no_dot : ∀ (p : List Char), '.' ∉ p → ∀ (t : List Char),
    dotMatchAt p t = (stripPre p t).isSome
  | [], _, t => by simp [dotMatchAt, stripPre]
  | p :: ps, hp, [] => by simp [dotMatchAt, stripPre]
  | p :: ps, hp, c :: cs => by
    have hpd : p ≠ '.' := fun h => hp (h ▸ List.mem_cons_self p ps)
    have hps : '.' ∉ ps := fun h => hp (List.mem_cons_of_mem p h)
    by_cases h : c = p
    · subst h
      simp [dotMatchAt, stripPre, hpd, dotMatchAt_no_dot ps hps cs]
    · simp [dotMatchAt, stripPre, hpd, h, Ne.symm h]

/-- On a nonempty pattern without the `.` metacharacter, `Regex::is_match`
holds exactly when the pattern occurs literally somewhere in the text. -/
theorem dotFind_iff : ∀ (p : List Char), '.' ∉ p → p ≠ [] → ∀ (t : List Char),
    (dotFind p t = true ↔ ∃ pre post, t = pre ++ p ++ post)
  | p, hp, hne, [] => by
    cases p with
    | nil => exact absurd rfl hne
    | cons q qs =>
      simp only [dotFind, dotMatchAt, Bool.false_eq_true, false_iff]
      rintro ⟨pre, post, h⟩
      simp at h
  | p, hp, hne, c :: ts => by
    rw [dotFind]
    simp only [Bool.or_eq_true]
    constructor
    · intro h
      rcases h with h1 | h1
      · rw [dotMatchAt_no_dot p hp] at h1
        rcases Option.isSome_iff_exists.mp h1 with ⟨r, hr⟩
        exact ⟨[], r, by simpa using (stripPre_iff p (c :: ts) r).mp hr⟩
      · rcases (dotFind_iff p hp hne ts).mp h1 with ⟨pre, post, hpp⟩
        exact ⟨c :: pre, post, by simp [hpp]⟩
    · rintro ⟨pre, post, hpp⟩
      cases pre with
      | nil =>
        left
        rw [dotMatchAt_no_dot p hp]
        apply Option.isSome_iff_exists.mpr
        exact ⟨post, (stripPre_iff p (c :: ts) post).mpr (by simpa using hpp)⟩
      | cons c' pre' =>
        right
        apply (dotFind_iff p hp hne ts).mpr
        refine ⟨pre', post, ?_⟩
        simp only [List.cons_append, List.cons.injEq] at hpp
        exact hpp.2

/-- Characters are determined by their numeric value. -/
theorem charToNat_injective {a b : Char} (h : a.toNat = b.toNat) : a = b :=
  Char.ext (UInt32.ext h)

/-- The digit-accumulator fold never decreases. -/
theorem digitsToNat_foldl_ge : ∀ (l : List Char) (acc : Nat),
    acc ≤ l.foldl (fun a c => a * 10 + (c.toNat - 48)) acc
  | [], acc => Nat.le_refl acc
  | c :: cs, acc => by
    have h1 : acc ≤ acc * 10 + (c.toNat - 48) := by omega
    exact h1.trans (digitsToNat_foldl_ge cs _)

/-- The capture of `([1-9]\d*)` has a positive numeric value. -/
theorem posDigits_pos (s ds r : List Char) (h : posDigits s = some (ds, r)) :
    0 < digitsToNat ds := by
  cases s with
  | nil => cases h
  | cons c cs =>
    simp only [posDigits] at h
    split at h
    · rename_i hcond
      cases h
      have h48 : 48 ≤ c.toNat ∧ c.toNat ≤ 57 := by
        have := hcond.1
        simpa [isDigitC] using this
      have hne : c.toNat ≠ 48 := by
        intro he
        exact hcond.2 (charToNat_injective (by simpa using he))
      have h1 : 1 ≤ c.toNat - 48 := by omega
      have h2 : digitsToNat (c :: (takeDigits cs).1) =
          (takeDigits cs).1.foldl (fun a x => a * 10 + (x.toNat - 48))
            (0 * 10 + (c.toNat - 48)) := rfl
      rw [h2]
      have := digitsToNat_foldl_ge (takeDigits cs).1 (0 * 10 + (c.toNat - 48))
      omega
    · cases h

/-- The clamp `if rate > 1.0 { 1.0 } else { rate }` of a ratio of machine
integers is an ordinary number in [0, 1] unless numerator and denominator are
both zero. -/
theorem clampRange (l c : Nat) (h : ¬(l = 0 ∧ c = 0)) :
    F32.inRange01 (if (F32.div (.fin l 1) (.fin c 1)).gt (.fin 1 1) then .fin 1 1
                   else F32.div (.fin l 1) (.fin c 1)) = true := by
  by_cases hc : c = 0
  · have hl : ¬ l = 0 := fun hl => h ⟨hl, hc⟩
    simp [F32.div, hc, hl, F32.gt, F32.inRange01]
  · by_cases hlt : c < l
    · simp [F32.div, hc, F32.gt, hlt, F32.inRange01, mul_one, one_mul]
    · simp [F32.div, hc, F32.gt, hlt, F32.inRange01, mul_one, one_mul]
      omega

/-- One loop step changes the collected result only by possibly appending the
open group, and only when that group's source is set. -/
theorem analyzeStep_result (cfg : Config) (fs : FS) (st : AnalyzeState)
    (line : Except Unit String) (st' : AnalyzeState)
    (h : analyzeStep cfg fs st line = .ok st') :
    st'.result = st.result ∨
      (st'.result = st.result ++ [st.dup] ∧ st.dup.source.is_empty = false) := by
  cases line with
  | error e =>
    cases h
    exact Or.inl rfl
  | ok string =>
    simp only [analyzeStep] at h
    split at h
    · cases hse : st.dup.source.is_empty <;>
        simp only [hse, Bool.not_false, Bool.not_true, if_true, if_false] at h <;>
        cases h
      · exact Or.inr ⟨rfl, rfl⟩
      · exact Or.inl rfl
    · split at h
      · cases h
        exact Or.inl rfl
      · split at h
        · cases h
        · cases h
          exact Or.inl rfl
        · split at h
          · cases h
          · cases h
            refine Or.inl ?_
            split
            · rfl
            · split <;> rfl

/-- The loop only ever appends groups whose source is set. -/
theorem analyzeLoop_result_sound (cfg : Config) (fs : FS) :
    ∀ (lines : List (Except Unit String)) (st st' : AnalyzeState),
      analyzeLoop cfg fs st lines = .ok st' →
      ∀ g ∈ st'.result, g ∈ st.result ∨ g.source.is_empty = false
  | [], st, st', h => by
    cases h
    exact fun g hg => Or.inl hg
  | l :: ls, st, st', h => by
    simp only [analyzeLoop] at h
    cases hs : analyzeStep cfg fs st l with
    | error e => rw [hs] at h; cases h
    | ok st1 =>
      rw [hs] at h
      intro g hg
      rcases analyzeLoop_result_sound cfg fs ls st1 st' h g hg with h1 | h1
      · rcases analyzeStep_result cfg fs st l st1 hs with h2 | ⟨h2, h3⟩
        · exact Or.inl (h2 ▸ h1)
        · rw [h2] at h1
          rcases List.mem_append.1 h1 with h4 | h4
          · exact Or.inl h4
          · have : g = st.dup := by simpa using h4
            exact Or.inr (this ▸ h3)
      · exact Or.inr h1

/-! ## Claim theorems -/

/-- C1: on a line that does not reach the location shape,
`DuplicationAnalyzer.analyze` returns no match without failing; but on a line of
the shape `Starting at line <positive integer> of ` whose path capture is empty
the code panics — `cap.len()` counts the pattern's groups whether or not they
participate, so the guard `cap.len() > 2` always passes and `&cap[2]` indexes a
non-participating group — instead of returning a match with an empty path as the
claim states. -/
theorem C1_panic_eval :
    DuplicationAnalyzer.analyze "this line does not match at all" = .ok none ∧
    DuplicationAnalyzer.analyze "Starting at line 287 of /x/y.swift" =
      .ok (some (287, "/x/y.swift")) ∧
    DuplicationAnalyzer.analyze "Starting at line 287 of " =
      .error "no group at index 2" := by
  exact ⟨by decide, by decide, by decide⟩

/-- C2: the run-level file counts of `Runner::pretty_printed` scan with the
hardcoded language list `[Lang::Swift]` (the source marks it
`// TODO: using language from args.`), not with the language configured by
`--language`: for a run configured with language "java", a destination tree
holding one `.java` file is counted as 0 files by the code, while the scan
filtered to the configured language's extension counts 1. -/
theorem C2_hardcoded_lang_eval :
    Runner.langs = [Lang.Swift] ∧
    Lang.Java.lang = "java" ∧
    Scanner.num_of_files (Scanner.scan
      (.dir "/repo/dest" (.cons (.file "/repo/dest/B.java" [.ok "x"]) .nil))
      Runner.langs) = 0 ∧
    Scanner.num_of_files (Scanner.scan
      (.dir "/repo/dest" (.cons (.file "/repo/dest/B.java" [.ok "x"]) .nil))
      [Lang.Java]) = 1 := by
  exact ⟨by decide, by decide, by decide, by decide⟩

/-- C3 (counterexample): the destination test is the unescaped regex
`/{segment}/` searched as a substring, not a path-segment equality test. With
destination directory `/repo/dest.v1` (final segment `dest.v1`, containing the
regex metacharacter `.`), the path `/a/destXv1/f.swift` is classified as a
destination although none of its segments equals `dest.v1`; and with
destination `/repo/dest`, the path `/a/b/dest`, whose final segment equals
`dest`, is not classified. -/
theorem C3_counterexample :
    is_destination_soruce_file "/repo/dest.v1" "/a/destXv1/f.swift" = .ok true ∧
    "dest.v1".data ∉ splitChar '/' "/a/destXv1/f.swift".data ∧
    is_destination_soruce_file "/repo/dest" "/a/b/dest" = .ok false ∧
    "dest".data ∈ splitChar '/' "/a/b/dest".data := by
  exact ⟨by decide, by decide, by decide, by decide⟩

/-- C6 (counterexample): a record with `duplicatedLines = 0` whose source and
first destination line counts are 0 (both reachable: an overflowing header
count parses to 0 and an unreadable file counts 0 lines) gets NaN — `0.0/0.0`,
not clamped since `NaN > 1.0` is false — for both rates, and NaN does not lie
in [0.0, 1.0]; the claim fails for line count zero. -/
theorem C6_counterexample :
    Duplication.rate_of_source_code ⟨0, ⟨"/src/A.swift", 0⟩, [⟨"/dest/B.swift", 0⟩]⟩ = .nan ∧
    Duplication.dup_rate ⟨0, ⟨"/src/A.swift", 0⟩, [⟨"/dest/B.swift", 0⟩]⟩ = .nan ∧
    F32.inRange01 .nan = false := by
  exact ⟨by decide, by decide, by decide⟩

/-- C7 (counterexample): a header declaring a positive count that does not fit
in `usize` matches the regex but `parse::<usize>().unwrap_or_default()` turns it
into 0, so `matchGroupHeader` returns a match of 0 and a report containing such
a header emits a group with zero declared lines, contradicting the claim. -/
theorem C7_counterexample :
    LinesAnalyzer.analyze "Found a 99999999999999999999999999 line (400 tokens) duplication" =
      some 0 ∧
    Runner.analyze ⟨"/src", "/repo/dest"⟩ (fun _ => none)
      [.ok "Found a 99999999999999999999999999 line (400 tokens) duplication",
       .ok "Starting at line 1 of /src/A.swift",
       .ok "Starting at line 1 of /dest/B.swift",
       .ok ""] =
      .ok [⟨0, ⟨"/src/A.swift", 0⟩, [⟨"/dest/B.swift", 0⟩]⟩] := by
  exact ⟨by decide, by decide⟩

/-- C3 (amended): classification as a destination is the regex test
`/{ident}/` searched in the path, where `ident` is the destination directory's
final path segment interpolated unescaped. For an identifier free of regex
metacharacters — every character literal per `regexLiteral`, so the regex
compiles to a literal substring matcher — this holds exactly when the
identifier occurs as a complete, slash-delimited, interior segment of the path
(`path = pre ++ "/" ++ ident ++ "/" ++ post`): a longer segment merely
containing the identifier does not match, but neither does a path whose final
segment equals the identifier. An identifier containing metacharacters is
instead interpreted as regex syntax and can misclassify (see the
counterexample, which exercises `.`) or make the pattern fail to compile. -/
theorem C3_amended_segment (destination file : String) (name : List Char)
    (h1 : rustFileName destination = some name)
    (h2 : ∀ c ∈ name, regexLiteral c = true) :
    (is_destination_soruce_file destination file = .ok true ↔
      ∃ pre post, file.data = pre ++ ('/' :: name ++ ['/']) ++ post) := by
  unfold is_destination_soruce_file
  rw [h1]
  have hdot : ('.' : Char) ≠ '/' := by decide
  have hdotname : ('.' : Char) ∉ name := fun hm =>
    absurd (h2 '.' hm) (by decide)
  have hp : '.' ∉ ('/' :: name ++ ['/']) := by
    intro h
    rcases List.mem_cons.mp h with h | h
    · exact hdot h
    · rcases List.mem_append.mp h with h | h
      · exact hdotname h
      · simp only [List.mem_singleton] at h
        exact hdot h
  have hne : ('/' :: name ++ ['/'] : List Char) ≠ [] := by simp
  constructor
  · intro h
    exact (dotFind_iff _ hp hne file.data).mp (Except.ok.inj h)
  · intro h
    exact congrArg Except.ok ((dotFind_iff _ hp hne file.data).mpr h)

/-- Witness for C3 (amended): destination `/repo/dest`, whose final segment
`dest` is all literal characters, and path `/a/b/dest/f.swift` — the
identifier occurs as an interior segment and the path is classified as a
destination. -/
theorem C3_amended_segment_witness :
    is_destination_soruce_file "/repo/dest" "/a/b/dest/f.swift" = .ok true :=
  (C3_amended_segment "/repo/dest" "/a/b/dest/f.swift" "dest".data (by decide)
    (by decide)).mpr ⟨"/a/b".data, "f.swift".data, by decide⟩

/-- C6 (amended): `destinationDuplicationRate` is 0 when the record has no
destination, and both rates lie in [0.0, 1.0] whenever the duplicated line
count and the relevant denominator line count are not both zero; in the
remaining case (`duplicatedLines = 0` and line count 0) the division `0.0/0.0`
yields NaN, which escapes the `> 1.0` clamp and lies outside [0.0, 1.0] (see
the counterexample). -/
theorem C6_amended_range (d : Duplication) :
    (d.destination = [] → d.dup_rate = .fin 0 1) ∧
    (¬(d.lines = 0 ∧ d.source.lines = 0) →
      F32.inRange01 d.rate_of_source_code = true) ∧
    (∀ dst rest, d.destination = dst :: rest →
      ¬(d.lines = 0 ∧ dst.lines = 0) →
      F32.inRange01 d.dup_rate = true) := by
  refine ⟨?_, ?_, ?_⟩
  · intro h
    simp [Duplication.dup_rate, h]
  · intro h
    exact clampRange d.lines d.source.lines h
  · intro dst rest hd h
    have hrw : d.dup_rate =
        if (F32.div (.fin d.lines 1) (.fin dst.lines 1)).gt (.fin 1 1) then .fin 1 1
        else F32.div (.fin d.lines 1) (.fin dst.lines 1) := by
      simp [Duplication.dup_rate, hd, F32.ofNat]
    rw [hrw]
    exact clampRange d.lines dst.lines h

/-- Witness for C6 (amended) at concrete records: no destination gives rate 0;
12/40 is in range; 500 duplicated lines against a zero-length destination is
clamped into range. -/
theorem C6_amended_range_witness :
    (⟨12, ⟨"/src/A.swift", 40⟩, []⟩ : Duplication).dup_rate = .fin 0 1 ∧
    F32.inRange01 (⟨12, ⟨"/src/A.swift", 40⟩,
      [⟨"/dest/B.swift", 60⟩]⟩ : Duplication).rate_of_source_code = true ∧
    F32.inRange01 (⟨500, ⟨"/src/A.swift", 40⟩,
      [⟨"/dest/B.swift", 0⟩]⟩ : Duplication).dup_rate = true :=
  ⟨(C6_amended_range ⟨12, ⟨"/src/A.swift", 40⟩, []⟩).1 rfl,
   (C6_amended_range ⟨12, ⟨"/src/A.swift", 40⟩, [⟨"/dest/B.swift", 60⟩]⟩).2.1
     (by decide),
   (C6_amended_range ⟨500, ⟨"/src/A.swift", 40⟩, [⟨"/dest/B.swift", 0⟩]⟩).2.2
     ⟨"/dest/B.swift", 0⟩ [] rfl (by decide)⟩

/-- C7 (amended): `matchGroupHeader` refines the specification's recognizer —
it matches exactly the lines the spec recognizer matches (a line beginning with
the fixed phrase, a positive integer with no leading zero, and the word
"line"), so a zero or non-numeric count yields no match; but the returned value
is the declared count only when it fits in `usize`: a larger declared count is
collapsed to 0 by `unwrap_or_default`, so an emitted group can carry zero
declared lines (see the counterexample). The spec recognizer itself never
returns 0. -/
theorem C7_amended_overflow :
    (∀ line : String, LinesAnalyzer.analyze line =
      (specHeaderMatch line).map (fun v => if v < USIZE then v else 0)) ∧
    (∀ (line : String) (v : Nat), specHeaderMatch line = some v → 0 < v) := by
  constructor
  · intro line
    unfold LinesAnalyzer.analyze specHeaderMatch parseUsizeOrDefault
    cases h1 : stripPre "Found a ".data line.data with
    | none => rfl
    | some r1 =>
      cases h2 : posDigits r1 with
      | none => simp [h2]
      | some dr =>
        obtain ⟨ds, r2⟩ := dr
        cases h3 : stripPre " line".data r2 with
        | none => simp [h2, h3]
        | some r3 => simp [h2, h3]
  · intro line v h
    unfold specHeaderMatch at h
    split at h
    · cases h
    · split at h
      · cases h
      · split at h
        · cases h
        · cases h
          rename_i x2 v1 he2 x1 ds r2 he1 x v he
          exact posDigits_pos v1 ds r2 he1

/-- Witness for C7 (amended): the spec recognizer accepts the scenario-A header
with value 12, which is positive; the code recognizer agrees on that line. -/
theorem C7_amended_overflow_witness :
    LinesAnalyzer.analyze "Found a 12 line (76 tokens) duplication" =
      (specHeaderMatch "Found a 12 line (76 tokens) duplication").map
        (fun v => if v < USIZE then v else 0) ∧
    0 < 12 :=
  ⟨C7_amended_overflow.1 "Found a 12 line (76 tokens) duplication",
   C7_amended_overflow.2 "Found a 12 line (76 tokens) duplication" 12 (by decide)⟩

/-- C5: an empty line while in a group emits the open group into the output
exactly when its source is set (otherwise the group is dropped), then resets
the machine to idle (`is_new_group = false`, fresh `Duplication::new(0)`);
consequently every group in the parser output — and every record of the
aggregated output — has a non-empty source. -/
theorem C5_emit_invariant :
    (∀ (cfg : Config) (fs : FS) (st : AnalyzeState), st.is_new_group = true →
      analyzeStep cfg fs st (.ok "") =
        .ok ⟨false,
          (if st.dup.source.is_empty then st.result else st.result ++ [st.dup]),
          Duplication.new 0⟩) ∧
    (∀ (cfg : Config) (fs : FS) (lines : List (Except Unit String))
       (res : List Duplication),
      Runner.analyze cfg fs lines = .ok res →
      ∀ g ∈ res, g.source.is_empty = false) ∧
    (∀ (cfg : Config) (fs : FS) (lines : List (Except Unit String))
       (res : List Duplication) (k : String) (d : Duplication),
      Runner.analyze cfg fs lines = .ok res →
      lookupA (aggregate res) k = some d → d.source.is_empty = false) := by
  have key : ∀ (cfg : Config) (fs : FS) (lines : List (Except Unit String))
      (res : List Duplication),
      Runner.analyze cfg fs lines = .ok res →
      ∀ g ∈ res, g.source.is_empty = false := by
    intro cfg fs lines res h g hg
    unfold Runner.analyze at h
    cases hl : analyzeLoop cfg fs initState lines with
    | error e => rw [hl] at h; cases h
    | ok st =>
      rw [hl] at h
      cases h
      rcases analyzeLoop_result_sound cfg fs lines initState st hl g hg with h1 | h1
      · exact absurd h1 (List.not_mem_nil g)
      · exact h1
  refine ⟨?_, key, ?_⟩
  · intro cfg fs st hg
    rw [analyzeStep_empty, hg]
    simp
  · intro cfg fs lines res k d h hd
    rw [aggregate, foldl_aggStep_lookup res [] k] at hd
    simp only [lookupA] at hd
    cases hf : res.filter (fun g => !g.destination.isEmpty && g.source.file == k) with
    | nil => rw [hf] at hd; cases hd
    | cons g gs =>
      rw [hf] at hd
      cases hd
      have hmem : g ∈ res :=
        List.mem_of_mem_filter (hf ▸ List.mem_cons_self g gs)
      exact key cfg fs lines res h g hmem

/-- Witness for C5: the emission step at a concrete in-group state, and the
non-empty-source invariant on the concrete scenario-A run. -/
theorem C5_emit_invariant_witness :
    analyzeStep ⟨"/src", "/repo/dest"⟩ (fun _ => none)
      ⟨true, [], ⟨12, ⟨"/src/A.swift", 0⟩, [⟨"/dest/B.swift", 0⟩]⟩⟩ (.ok "") =
      .ok ⟨false, [⟨12, ⟨"/src/A.swift", 0⟩, [⟨"/dest/B.swift", 0⟩]⟩],
           Duplication.new 0⟩ ∧
    (⟨12, ⟨"/src/A.swift", 0⟩, [⟨"/dest/B.swift", 0⟩]⟩ : Duplication).source.is_empty
      = false := by
  constructor
  · exact (C5_emit_invariant.1 ⟨"/src", "/repo/dest"⟩ (fun _ => none)
      ⟨true, [], ⟨12, ⟨"/src/A.swift", 0⟩, [⟨"/dest/B.swift", 0⟩]⟩⟩ rfl).trans
      (by decide)
  · exact C5_emit_invariant.2.1 ⟨"/src", "/repo/dest"⟩ (fun _ => none)
      [.ok "Found a 12 line (76 tokens) duplication",
       .ok "Starting at line 3 of /src/A.swift",
       .ok "Starting at line 3 of /dest/B.swift",
       .ok ""]
      [⟨12, ⟨"/src/A.swift", 0⟩, [⟨"/dest/B.swift", 0⟩]⟩] (by decide)
      ⟨12, ⟨"/src/A.swift", 0⟩, [⟨"/dest/B.swift", 0⟩]⟩ (by decide)

/-- C8 (counterexample): "same run-level rates" fails under the real `f32`
accumulation. The three records below have duplication rates `1.0`, `2 ^ (-24)`
and `2 ^ (-24)` — all exactly representable in binary32, so the divisions
introduce no rounding — and the two lists are permutations of one another, two
possible iteration orders of the same aggregated values. Accumulating
`dup_rate` with round-to-nearest-even `f32` addition (`F32.addRounded`) gives
`1.0` for the first order (each `1.0 + 2 ^ (-24)` is a tie rounded back to the
even `1.0`) but `1 + 2 ^ (-23)` for the second (the two small rates combine
exactly before meeting `1.0`), so the two totals differ as values. -/
theorem C8_counterexample :
    List.Perm
      [(⟨40, ⟨"/src/A.swift", 40⟩, [⟨"/dest/B.swift", 40⟩]⟩ : Duplication),
       ⟨1, ⟨"/src/C.swift", 100⟩, [⟨"/dest/D.swift", 16777216⟩]⟩,
       ⟨1, ⟨"/src/E.swift", 100⟩, [⟨"/dest/F.swift", 16777216⟩]⟩]
      [⟨1, ⟨"/src/C.swift", 100⟩, [⟨"/dest/D.swift", 16777216⟩]⟩,
       ⟨1, ⟨"/src/E.swift", 100⟩, [⟨"/dest/F.swift", 16777216⟩]⟩,
       ⟨40, ⟨"/src/A.swift", 40⟩, [⟨"/dest/B.swift", 40⟩]⟩] ∧
    totalRateRounded
      [⟨40, ⟨"/src/A.swift", 40⟩, [⟨"/dest/B.swift", 40⟩]⟩,
       ⟨1, ⟨"/src/C.swift", 100⟩, [⟨"/dest/D.swift", 16777216⟩]⟩,
       ⟨1, ⟨"/src/E.swift", 100⟩, [⟨"/dest/F.swift", 16777216⟩]⟩] =
      .fin (2 ^ 23) (2 ^ 23) ∧
    totalRateRounded
      [⟨1, ⟨"/src/C.swift", 100⟩, [⟨"/dest/D.swift", 16777216⟩]⟩,
       ⟨1, ⟨"/src/E.swift", 100⟩, [⟨"/dest/F.swift", 16777216⟩]⟩,
       ⟨40, ⟨"/src/A.swift", 40⟩, [⟨"/dest/B.swift", 40⟩]⟩] =
      .fin (2 ^ 23 + 1) (2 ^ 23) ∧
    F32.gt (.fin (2 ^ 23 + 1) (2 ^ 23)) (.fin (2 ^ 23) (2 ^ 23)) = true := by
  exact ⟨by decide, by decide, by decide, by decide⟩

/-- C8 (amended): parsing and aggregation are deterministic — two runs of the
pipeline over the same report lines against the same file system produce the
same group sequence and the same aggregated map (same records, same keys, same
`duplicatedLines`, same `primaryDestination`, hence the same per-record
rates). The run-level rate totals, however, are `f32` accumulations over the
`HashMap`'s unspecified value iteration order, and rounded `f32` addition is
order-dependent, so they are identical only up to summation order: two
iteration orders of the same records can print different totals (see the
counterexample). -/
theorem C8_amended_records (cfg : Config) (fs : FS)
    (lines : List (Except Unit String)) (res1 res2 : List Duplication)
    (h1 : Runner.analyze cfg fs lines = .ok res1)
    (h2 : Runner.analyze cfg fs lines = .ok res2) :
    res1 = res2 ∧ aggregate res1 = aggregate res2 := by
  have hres : res1 = res2 := by
    rw [h1] at h2
    exact Except.ok.inj h2
  exact ⟨hres, by rw [hres]⟩

/-- Witness for C8 (amended) on the scenario-A run. -/
theorem C8_amended_records_witness :
    ([⟨12, ⟨"/src/A.swift", 0⟩, [⟨"/dest/B.swift", 0⟩]⟩] : List Duplication) =
      [⟨12, ⟨"/src/A.swift", 0⟩, [⟨"/dest/B.swift", 0⟩]⟩] ∧
    aggregate [⟨12, ⟨"/src/A.swift", 0⟩, [⟨"/dest/B.swift", 0⟩]⟩] =
      aggregate [⟨12, ⟨"/src/A.swift", 0⟩, [⟨"/dest/B.swift", 0⟩]⟩] :=
  C8_amended_records ⟨"/src", "/repo/dest"⟩ (fun _ => none)
    [.ok "Found a 12 line (76 tokens) duplication",
     .ok "Starting at line 3 of /src/A.swift",
     .ok "Starting at line 3 of /dest/B.swift",
     .ok ""]
    [⟨12, ⟨"/src/A.swift", 0⟩, [⟨"/dest/B.swift", 0⟩]⟩]
    [⟨12, ⟨"/src/A.swift", 0⟩, [⟨"/dest/B.swift", 0⟩]⟩]
    (by decide) (by decide)

/-- C9: a report line that cannot be decoded (the reader yields `Err`) is
skipped — the parsing loop continues on the remaining lines from an unchanged
state — and a file that cannot be read for its line count (`File::open` fails)
is counted as zero lines instead of aborting. -/
theorem C9_error_tolerance :
    (∀ (cfg : Config) (fs : FS) (st : AnalyzeState) (e : Unit)
       (ls : List (Except Unit String)),
      analyzeLoop cfg fs st (.error e :: ls) = analyzeLoop cfg fs st ls) ∧
    (∀ (fs : FS) (path : String) (ignore_blank : Bool),
      fs path = none → count_lines fs path ignore_blank = 0) := by
  constructor
  · intro cfg fs st e ls
    rfl
  · intro fs path ignore_blank h
    simp [count_lines, h]

/-- Witness for C9 at a concrete unreadable line and unreadable file. -/
theorem C9_error_tolerance_witness :
    analyzeLoop ⟨"/src", "/repo/dest"⟩ (fun _ => none) initState [.error ()] =
      analyzeLoop ⟨"/src", "/repo/dest"⟩ (fun _ => none) initState [] ∧
    count_lines (fun _ => none) "/src/A.swift" true = 0 :=
  ⟨C9_error_tolerance.1 ⟨"/src", "/repo/dest"⟩ (fun _ => none) initState () [],
   C9_error_tolerance.2 (fun _ => none) "/src/A.swift" true rfl⟩

/-- C10: only an empty line encountered while in a group flushes the group into
the output; end of input performs no flush. If the report's lines leave the
loop in state `st`, the output is exactly `st.result` — the still-open group
`st.dup` is absent even when it has a source and destinations — whereas the
same report with one more empty line appended also emits `st.dup` whenever the
loop is in a group with a source set. -/
theorem C10_no_flush_at_eof (cfg : Config) (fs : FS)
    (lines : List (Except Unit String)) (st : AnalyzeState)
    (h : analyzeLoop cfg fs initState lines = .ok st) :
    Runner.analyze cfg fs lines = .ok st.result ∧
    Runner.analyze cfg fs (lines ++ [.ok ""]) =
      .ok (st.result ++
        (if st.is_new_group && !st.dup.source.is_empty then [st.dup] else [])) := by
  constructor
  · unfold Runner.analyze
    rw [h]
  · unfold Runner.analyze
    rw [analyzeLoop_append cfg fs lines [.ok ""] initState, h]
    simp only [analyzeLoop, analyzeStep_empty]
    cases hg : st.is_new_group <;> cases he : st.dup.source.is_empty <;> simp [hg, he]

/-- Witness for C10: a report not ending in an empty line, whose final group has
a source and a destination, yields no output; the same report with a trailing
empty line yields that group. -/
theorem C10_no_flush_at_eof_witness :
    Runner.analyze ⟨"/src", "/repo/dest"⟩ (fun _ => none)
      [.ok "Found a 12 line (76 tokens) duplication",
       .ok "Starting at line 3 of /src/A.swift",
       .ok "Starting at line 3 of /dest/B.swift"] = .ok [] ∧
    Runner.analyze ⟨"/src", "/repo/dest"⟩ (fun _ => none)
      ([.ok "Found a 12 line (76 tokens) duplication",
        .ok "Starting at line 3 of /src/A.swift",
        .ok "Starting at line 3 of /dest/B.swift"] ++ [.ok ""]) =
      .ok [⟨12, ⟨"/src/A.swift", 0⟩, [⟨"/dest/B.swift", 0⟩]⟩] := by
  have h := C10_no_flush_at_eof ⟨"/src", "/repo/dest"⟩ (fun _ => none)
    [.ok "Found a 12 line (76 tokens) duplication",
     .ok "Starting at line 3 of /src/A.swift",
     .ok "Starting at line 3 of /dest/B.swift"]
    ⟨true, [], ⟨12, ⟨"/src/A.swift", 0⟩, [⟨"/dest/B.swift", 0⟩]⟩⟩ (by decide)
  exact h

end CDA
